import Mathlib

/-!
Verification of the SuperAgent-MCP concurrency/process-lifecycle core:
the bounded-concurrency scheduler (`runWithConcurrency` in src/runner.ts),
the per-agent invocation lifecycles (`invokeCodex`, `invokeContinue`,
`invokeGemini`), the output parsers (`parseJsonLines`,
`parseAssistantReply`, `parseGeminiResponse`), the heartbeat controller
(`createHeartbeat` in src/heartbeat.ts) and the process registry
(src/processManager.ts).

The JavaScript event loop is single threaded, so a run of the scheduler is
modelled as a deterministic state machine driven by a completion schedule:
each schedule entry picks which in-flight worker settles next, after which
the `.finally` handler refills the active set exactly as `launchNext` does.
-/

namespace SuperAgent

/-- State of one `runWithConcurrency` promise: the `nextIndex` cursor, the
set of indices currently in flight (`activeCount` is its length), and the
pre-sized results container (`new Array(items.length)`, holes as `none`). -/
structure SchedState (R : Type) where
  nextIndex : Nat
  active : List Nat
  results : List (Option R)
deriving Repr, DecidableEq

/-- The `while (activeCount < limit && nextIndex < items.length)` loop body
of `launchNext` in src/runner.ts: repeatedly dispatch the task at
`nextIndex`, adding its index to the in-flight set.  `fuel` bounds the
iteration count; callers pass `N - nextIndex`, which the loop can never
exceed since every iteration advances `nextIndex`. -/
def launchLoop (limit N : Nat) : Nat → SchedState R → SchedState R
  | 0, s => s
  | fuel + 1, s =>
    if s.active.length < limit ∧ s.nextIndex < N then
      launchLoop limit N fuel
        { nextIndex := s.nextIndex + 1
          active := s.active ++ [s.nextIndex]
          results := s.results }
    else s

/-- One call of `launchNext`'s dispatch loop from state `s`. -/
def launchNext (limit N : Nat) (s : SchedState R) : SchedState R :=
  launchLoop limit N (N - s.nextIndex) s

/-- State before the initial `launchNext()` call: nothing dispatched,
nothing in flight, `new Array(items.length)` all holes. -/
def initState (N : Nat) : SchedState R :=
  { nextIndex := 0, active := [], results := List.replicate N none }

/-- The settlement of one in-flight worker plus the `.finally` handler:
schedule entry `k` picks which in-flight index settles (`k` is reduced
modulo the in-flight count, so every completion order is expressible);
its result is written at its original index, `activeCount` drops by one,
and `launchNext` runs again.  `res i` is the value the worker produces for
`items[i]` (`worker(items[i], i)`). -/
def schedStep (limit N : Nat) (res : Nat → R) (k : Nat) (s : SchedState R) : SchedState R :=
  if s.active.isEmpty then s
  else
    let idx := s.active.getD (k % s.active.length) 0
    launchNext limit N
      { nextIndex := s.nextIndex
        active := s.active.erase idx
        results := s.results.set idx (some (res idx)) }

/-- The resolve condition at the top of `launchNext`:
`nextIndex >= items.length && activeCount === 0`. -/
def isDone (N : Nat) (s : SchedState R) : Bool :=
  N ≤ s.nextIndex && s.active.isEmpty

/-- Drive the scheduler with a completion schedule: resolve with the
results array as soon as the resolve condition holds; otherwise consume
one completion per schedule entry.  `none` means the promise has not
resolved within the given schedule. -/
def schedRun (limit N : Nat) (res : Nat → R) : List Nat → SchedState R → Option (List (Option R))
  | [], s => if isDone N s then some s.results else none
  | k :: rest, s =>
    if isDone N s then some s.results
    else schedRun limit N res rest (schedStep limit N res k s)

/-- `runWithConcurrency(items, limit, worker)` from src/runner.ts, as a
function of the task count `N`, the pure worker outcome `res` (with
`res i = worker(items[i], i)`), and a completion schedule. -/
def runWithConcurrency (limit N : Nat) (res : Nat → R) (sched : List Nat) : Option (List (Option R)) :=
  schedRun limit N res sched (launchNext limit N (initState N))

/-- State reached after the initial dispatch and a given prefix of
completions; used to speak about every step of an execution. -/
def stateAfter (limit N : Nat) (res : Nat → R) (sched : List Nat) : SchedState R :=
  sched.foldl (fun s k => schedStep limit N res k s) (launchNext limit N (initState N))

/-- Invariant of the scheduler state: the results container keeps its
size, the cursor stays in range, in-flight indices are distinct dispatched
indices, at most `limit` are in flight, and every dispatched index that is
no longer in flight already holds its worker's value. -/
structure SchedInv (limit N : Nat) (res : Nat → R) (s : SchedState R) : Prop where
  results_len : s.results.length = N
  next_le : s.nextIndex ≤ N
  nodup : s.active.Nodup
  active_lt : ∀ i ∈ s.active, i < s.nextIndex
  active_le_limit : s.active.length ≤ limit
  results_done : ∀ i < s.nextIndex, i ∉ s.active → s.results[i]? = some (some (res i))

/-- Saturation: after a dispatch loop, either the concurrency limit is
fully used or every task has been dispatched. -/
def Sat (limit N : Nat) (s : SchedState R) : Prop :=
  s.active.length = limit ∨ s.nextIndex = N

/-- Number of settlements still to happen: undispatched tasks plus
in-flight tasks. -/
def pending (N : Nat) (s : SchedState R) : Nat :=
  (N - s.nextIndex) + s.active.length

/-- JSON values as produced by `JSON.parse`: numbers keep their source
lexeme (no claim inspects numeric magnitudes), objects keep their fields
in source order with lookups taking the last duplicate, as JavaScript
does. -/
inductive JVal where
  | null
  | bool (b : Bool)
  | num (lexeme : String)
  | str (s : String)
  | arr (elems : List JVal)
  | obj (fields : List (String × JVal))

/-- The opening-brace character, written by code point. -/
def lbrace : Char := Char.ofNat 123

/-- The closing-brace character, written by code point. -/
def rbrace : Char := Char.ofNat 125

/-- ASCII whitespace recognised by a JavaScript trim and by JSON. -/
def isJsWs (c : Char) : Bool :=
  c == ' ' || c == '\t' || c == '\n' || c == '\r' ||
    c == Char.ofNat 11 || c == Char.ofNat 12

/-- JavaScript `String.prototype.trim` over the code-unit list. -/
def jsTrim (s : String) : String :=
  String.mk (((s.data.dropWhile isJsWs).reverse.dropWhile isJsWs).reverse)

/-- JSON whitespace skipping. -/
def skipWs : List Char → List Char
  | [] => []
  | c :: cs => if c == ' ' || c == '\t' || c == '\n' || c == '\r' then skipWs cs else c :: cs

/-- Value of one hexadecimal digit. -/
def hexDigitVal (c : Char) : Option Nat :=
  if '0' ≤ c ∧ c ≤ '9' then some (c.toNat - '0'.toNat)
  else if 'a' ≤ c ∧ c ≤ 'f' then some (c.toNat - 'a'.toNat + 10)
  else if 'A' ≤ c ∧ c ≤ 'F' then some (c.toNat - 'A'.toNat + 10)
  else none

/-- Single-character JSON string escapes. -/
def escapeChar (c : Char) : Option Char :=
  if c = '\"' then some '\"'
  else if c = '\\' then some '\\'
  else if c = '/' then some '/'
  else if c = 'b' then some (Char.ofNat 8)
  else if c = 'f' then some (Char.ofNat 12)
  else if c = 'n' then some '\n'
  else if c = 'r' then some '\r'
  else if c = 't' then some '\t'
  else none

/-- Body of a JSON string after the opening quote; returns the decoded
characters and the remainder after the closing quote.  `fuel` is at least
the input length, so it never cuts a valid string short. -/
def parseStrChars : Nat → List Char → Option (List Char × List Char)
  | 0, _ => none
  | _ + 1, [] => none
  | fuel + 1, c :: cs =>
    if c = '\"' then some ([], cs)
    else if c = '\\' then
      match cs with
      | [] => none
      | e :: cs2 =>
        if e = 'u' then
          match cs2 with
          | h1 :: h2 :: h3 :: h4 :: cs3 =>
            match hexDigitVal h1, hexDigitVal h2, hexDigitVal h3, hexDigitVal h4 with
            | some v1, some v2, some v3, some v4 =>
              match parseStrChars fuel cs3 with
              | some (r, rest) =>
                some (Char.ofNat (((v1 * 16 + v2) * 16 + v3) * 16 + v4) :: r, rest)
              | none => none
            | _, _, _, _ => none
          | _ => none
        else
          match escapeChar e with
          | some ec =>
            match parseStrChars fuel cs2 with
            | some (r, rest) => some (ec :: r, rest)
            | none => none
          | none => none
    else if c.toNat < 32 then none
    else
      match parseStrChars fuel cs with
      | some (r, rest) => some (c :: r, rest)
      | none => none

/-- Longest digit run at the front of the input. -/
def splitDigits : List Char → List Char × List Char
  | [] => ([], [])
  | c :: cs =>
    if c.isDigit then
      let p := splitDigits cs
      (c :: p.1, p.2)
    else ([], c :: cs)

/-- Integer part of a JSON number (no redundant leading zero). -/
def parseIntPart (cs : List Char) : Option (List Char × List Char) :=
  match splitDigits cs with
  | ([], _) => none
  | (d :: ds, rest) =>
    if d = '0' ∧ ds ≠ [] then none else some (d :: ds, rest)

/-- Optional fraction part of a JSON number. -/
def parseFracPart : List Char → Option (List Char × List Char)
  | [] => some ([], [])
  | c :: cs2 =>
    if c = '.' then
      match splitDigits cs2 with
      | ([], _) => none
      | (ds, rest) => some ('.' :: ds, rest)
    else some ([], c :: cs2)

/-- Optional exponent part of a JSON number. -/
def parseExpPart : List Char → Option (List Char × List Char)
  | [] => some ([], [])
  | c :: cs2 =>
    if c = 'e' ∨ c = 'E' then
      let sf : List Char × List Char :=
        match cs2 with
        | s :: r => if s = '+' ∨ s = '-' then ([s], r) else ([], cs2)
        | [] => ([], [])
      match splitDigits sf.2 with
      | ([], _) => none
      | (ds, rest) => some (c :: (sf.1 ++ ds), rest)
    else some ([], c :: cs2)

/-- A JSON number; the lexeme is kept verbatim. -/
def parseNumber (cs : List Char) : Option (String × List Char) :=
  let sr : List Char × List Char :=
    match cs with
    | c :: r => if c = '-' then (['-'], r) else ([], cs)
    | [] => ([], [])
  match parseIntPart sr.2 with
  | none => none
  | some (ip, rest1) =>
    match parseFracPart rest1 with
    | none => none
    | some (fp, rest2) =>
      match parseExpPart rest2 with
      | none => none
      | some (ep, rest3) => some (String.mk (sr.1 ++ ip ++ fp ++ ep), rest3)

/-- Strip an expected literal character sequence. -/
def stripLiteralChars : List Char → List Char → Option (List Char)
  | [], cs => some cs
  | _ :: _, [] => none
  | p :: ps, c :: cs => if c = p then stripLiteralChars ps cs else none

mutual

/-- Recursive-descent JSON value parser, mirroring the grammar `JSON.parse`
accepts; `fuel` bounds the nesting/element chain and is chosen large
enough at the top entry. -/
def parseVal : Nat → List Char → Option (JVal × List Char)
  | 0, _ => none
  | fuel + 1, cs =>
    match skipWs cs with
    | [] => none
    | c :: rest =>
      if c = '\"' then
        match parseStrChars (rest.length + 1) rest with
        | some (chars, rest2) => some (.str (String.mk chars), rest2)
        | none => none
      else if c = lbrace then
        match skipWs rest with
        | d :: rest2 =>
          if d = rbrace then some (.obj [], rest2)
          else
            match parseMembers fuel (d :: rest2) with
            | some (fields, rest3) => some (.obj fields, rest3)
            | none => none
        | [] => none
      else if c = '[' then
        match skipWs rest with
        | d :: rest2 =>
          if d = ']' then some (.arr [], rest2)
          else
            match parseElems fuel (d :: rest2) with
            | some (elems, rest3) => some (.arr elems, rest3)
            | none => none
        | [] => none
      else
        match stripLiteralChars ['n', 'u', 'l', 'l'] (c :: rest) with
        | some rest2 => some (.null, rest2)
        | none =>
          match stripLiteralChars ['t', 'r', 'u', 'e'] (c :: rest) with
          | some rest2 => some (.bool true, rest2)
          | none =>
            match stripLiteralChars ['f', 'a', 'l', 's', 'e'] (c :: rest) with
            | some rest2 => some (.bool false, rest2)
            | none =>
              match parseNumber (c :: rest) with
              | some (lex, rest2) => some (.num lex, rest2)
              | none => none

/-- Comma-separated array elements up to the closing bracket. -/
def parseElems : Nat → List Char → Option (List JVal × List Char)
  | 0, _ => none
  | fuel + 1, cs =>
    match parseVal fuel cs with
    | none => none
    | some (v, rest) =>
      match skipWs rest with
      | c :: rest2 =>
        if c = ',' then
          match parseElems fuel rest2 with
          | some (vs, rest3) => some (v :: vs, rest3)
          | none => none
        else if c = ']' then some ([v], rest2)
        else none
      | [] => none

/-- Comma-separated object members up to the closing brace. -/
def parseMembers : Nat → List Char → Option (List (String × JVal) × List Char)
  | 0, _ => none
  | fuel + 1, cs =>
    match skipWs cs with
    | [] => none
    | c :: rest =>
      if c = '\"' then
        match parseStrChars (rest.length + 1) rest with
        | none => none
        | some (kchars, rest2) =>
          match skipWs rest2 with
          | [] => none
          | d :: rest3 =>
            if d = ':' then
              match parseVal fuel rest3 with
              | none => none
              | some (v, rest4) =>
                match skipWs rest4 with
                | [] => none
                | e2 :: rest5 =>
                  if e2 = ',' then
                    match parseMembers fuel rest5 with
                    | some (fs, rest6) => some ((String.mk kchars, v) :: fs, rest6)
                    | none => none
                  else if e2 = rbrace then some ([(String.mk kchars, v)], rest5)
                  else none
            else none
      else none

end

/-- `JSON.parse`: parse one value and require only whitespace after it;
`none` models a thrown `SyntaxError`. -/
def jsonParse (s : String) : Option JVal :=
  match parseVal (2 * s.length + 4) s.data with
  | some (v, rest) => if (skipWs rest).isEmpty then some v else none
  | none => none

/-- JavaScript property read on a parsed object: last duplicate wins. -/
def getF (fields : List (String × JVal)) (k : String) : Option JVal :=
  fields.foldl (fun acc kv => if kv.1 = k then some kv.2 else acc) none

/-- Property read on an arbitrary value: only objects expose properties
(array index properties and string methods are irrelevant to the keys the
parsers read, which are never numeric). -/
def jvField (v : JVal) (k : String) : Option JVal :=
  match v with
  | .obj f => getF f k
  | _ => none

/-- One content chunk in `collectFromMsg` (src/codexAgent.ts): an object
with a string `text` whose trim is non-empty contributes its trimmed
text. -/
def chunkTextTrim (c : JVal) : Option String :=
  match c with
  | .obj cf =>
    match getF cf "text" with
    | some (.str t) => if (jsTrim t).isEmpty then none else some (jsTrim t)
    | _ => none
  | _ => none

/-- One content chunk in the `type === "message"` branch of
`parseAssistantReply`: an object with a non-empty string `text`
contributes it untrimmed. -/
def chunkTextRaw (c : JVal) : Option String :=
  match c with
  | .obj cf =>
    match getF cf "text" with
    | some (.str t) => if t.isEmpty then none else some t
    | _ => none
  | _ => none

/-- `collectFromMsg` from src/codexAgent.ts: replies contributed by one
`msg` object — a trimmed non-empty `message` field and/or text chunks for
`agent_message`, text chunks only for `assistant_message`. -/
def collectFromMsg (mf : List (String × JVal)) : List String :=
  match getF mf "type" with
  | some (.str t) =>
    if t = "agent_message" then
      (match getF mf "message" with
       | some (.str m) => if (jsTrim m).isEmpty then [] else [jsTrim m]
       | _ => []) ++
      (match getF mf "content" with
       | some (.arr cs) => cs.filterMap chunkTextTrim
       | _ => [])
    else if t = "assistant_message" then
      match getF mf "content" with
      | some (.arr cs) => cs.filterMap chunkTextTrim
      | _ => []
    else []
  | _ => []

/-- The `event["type"] === "message"` branch of `parseAssistantReply`:
text chunks of `data.content` when `data.role` is `"assistant"`. -/
def typeBranchReplies (ef : List (String × JVal)) : List String :=
  match getF ef "type" with
  | some (.str t) =>
    if t = "message" then
      match getF ef "data" with
      | some (.obj df) =>
        match getF df "role" with
        | some (.str r) =>
          if r = "assistant" then
            match getF df "content" with
            | some (.arr cs) => cs.filterMap chunkTextRaw
            | _ => []
          else []
        | _ => []
      | _ => []
    else []
  | _ => []

/-- Replies contributed by one parsed event in `parseAssistantReply`:
non-objects are skipped; an event whose `msg` property is an object (or
array) routes through `collectFromMsg` and stops there (`continue`);
otherwise the `type === "message"` branch applies.  Arrays reach neither
branch (no `msg` nor string `type` property). -/
def eventReplies (e : JVal) : List String :=
  match e with
  | .obj ef =>
    match getF ef "msg" with
    | some (.obj mf) => collectFromMsg mf
    | some (.arr _) => []
    | _ => typeBranchReplies ef
  | _ => []

/-- `parseAssistantReply` from src/codexAgent.ts:
`replies.join("\n").trim()`. -/
def parseAssistantReply (events : List JVal) : String :=
  jsTrim (String.mk (List.intercalate ['\n']
    (((events.map eventReplies).flatten).map String.data)))

/-- Split on newline characters; `stdout.split(/\r?\n/)` differs from this
only by a trailing carriage return per segment, which the subsequent trim
removes in both cases. -/
def splitOnNl : List Char → List (List Char)
  | [] => [[]]
  | c :: cs =>
    if c = '\n' then [] :: splitOnNl cs
    else
      match splitOnNl cs with
      | [] => [[c]]
      | l :: ls => (c :: l) :: ls

/-- The line preprocessing in `parseJsonLines`:
`stdout.split(/\r?\n/).map(l => l.trim()).filter(Boolean)`. -/
def cleanLines (stdout : String) : List String :=
  ((splitOnNl stdout.data).map (fun cs => jsTrim (String.mk cs))).filter
    (fun l => !l.isEmpty)

/-- The synthetic event pushed for an unparsable line:
an object with `type: "log"` and `data` holding the line. -/
def logEvent (line : String) : JVal :=
  .obj [("type", .str "log"), ("data", .str line)]

/-- `parseJsonLines` from src/codexAgent.ts: each trimmed non-empty line
is parsed independently; a parse failure keeps the line as a synthetic
log event. -/
def parseJsonLines (stdout : String) : List JVal :=
  (cleanLines stdout).map (fun line =>
    match jsonParse line with
    | some v => v
    | none => logEvent line)

/-- Result of `parseGeminiResponse`: the recovered `response` value and
the optional `stats` value. -/
structure GeminiParsed where
  response : JVal
  stats : Option JVal

/-- JavaScript falsiness of a JSON value; for numbers, a mantissa with no
non-zero digit denotes zero. -/
def jsFalsy (v : JVal) : Bool :=
  match v with
  | .null => true
  | .bool b => !b
  | .str s => s.isEmpty
  | .num lex =>
    (lex.data.takeWhile (fun c => !(c == 'e' || c == 'E'))).all
      (fun c => if '1' ≤ c ∧ c ≤ '9' then false else true)
  | _ => false

/-- `v || ""` as used in `response: parsed.response || ""`. -/
def jsOrEmptyStr (v : JVal) : JVal :=
  if jsFalsy v then .str "" else v

/-- `String.prototype.indexOf` for a single character, over code points. -/
def charIndexOfAux : List Char → Char → Nat → Option Nat
  | [], _, _ => none
  | c :: cs, t, i => if c = t then some i else charIndexOfAux cs t (i + 1)

/-- First index of `t` in `s`, `none` for the JavaScript sentinel −1. -/
def strIndexOf (s : String) (t : Char) : Option Nat :=
  charIndexOfAux s.data t 0

/-- Last index of `t` in `s`, `none` for the JavaScript sentinel −1. -/
def strLastIndexOf (s : String) (t : Char) : Option Nat :=
  match charIndexOfAux s.data.reverse t 0 with
  | some i => some (s.length - 1 - i)
  | none => none

/-- `s.substring(a, b)` for `a ≤ b`, over code points. -/
def strSubstringCh (s : String) (a b : Nat) : String :=
  String.mk ((s.data.drop a).take (b - a))

/-- The final fallback of `parseGeminiResponse`: the raw trimmed stdout,
with no stats. -/
def geminiRaw (stdout : String) : GeminiParsed :=
  { response := .str (jsTrim stdout), stats := none }

/-- The second strategy of `parseGeminiResponse` (src/geminiAgent.ts):
take the substring from the first `indexOf` of an opening brace to the
last `lastIndexOf` of a closing brace (requiring the end to lie after the
start) and parse that; on any failure fall back to the raw trimmed
stdout. -/
def parseGeminiFallback (stdout : String) : GeminiParsed :=
  match strIndexOf stdout lbrace, strLastIndexOf stdout rbrace with
  | some i, some j =>
    if i < j then
      match jsonParse (strSubstringCh stdout i (j + 1)) with
      | some p =>
        match jvField p "response" with
        | some rv => { response := jsOrEmptyStr rv, stats := jvField p "stats" }
        | none => geminiRaw stdout
      | none => geminiRaw stdout
    else geminiRaw stdout
  | some _, none => geminiRaw stdout
  | none, _ => geminiRaw stdout

/-- `parseGeminiResponse` from src/geminiAgent.ts: parse the whole payload
first; if that yields a JSON value with a `response` property, use it;
otherwise run the brace-substring fallback chain. -/
def parseGeminiResponse (stdout : String) : GeminiParsed :=
  match jsonParse stdout with
  | some p =>
    match jvField p "response" with
    | some rv => { response := jsOrEmptyStr rv, stats := jvField p "stats" }
    | none => parseGeminiFallback stdout
  | none => parseGeminiFallback stdout

/-- Drop characters before the first opening brace. -/
def dropToLbrace : List Char → Option (List Char)
  | [] => none
  | c :: cs => if c = lbrace then some (c :: cs) else dropToLbrace cs

/-- Collect characters until the brace depth (starting at `depth`) returns
to zero, including the closing brace. -/
def balancedTail : Nat → List Char → Nat → Option (List Char)
  | 0, _, _ => none
  | _ + 1, [], _ => none
  | fuel + 1, c :: cs, depth =>
    if c = rbrace ∧ depth = 1 then some [c]
    else
      let d2 := if c = lbrace then depth + 1 else if c = rbrace then depth - 1 else depth
      match balancedTail fuel cs d2 with
      | some r => some (c :: r)
      | none => none

/-- The first balanced brace-delimited span of a string, if any. -/
def firstBalancedSpan (s : String) : Option String :=
  match dropToLbrace s.data with
  | some (c :: cs) =>
    match balancedTail (cs.length + 1) cs 1 with
    | some r => some (String.mk (c :: r))
    | none => none
  | _ => none

/-- Modelled from the spec's words for C7 (the claimed behaviour, not the
code): on whole-payload failure, scan for the FIRST BALANCED brace span
and parse that; fall back to raw trimmed stdout if no JSON with a
`response` field is recoverable. -/
def specBalancedFallback (stdout : String) : GeminiParsed :=
  match firstBalancedSpan stdout with
  | some sub =>
    match jsonParse sub with
    | some p =>
      match jvField p "response" with
      | some rv => { response := jsOrEmptyStr rv, stats := jvField p "stats" }
      | none => geminiRaw stdout
    | none => geminiRaw stdout
  | none => geminiRaw stdout

/-- Modelled from the spec's words for C7: the full claimed strategy chain
(whole payload, then first balanced span, then raw trimmed stdout). -/
def specGeminiBalanced (stdout : String) : GeminiParsed :=
  match jsonParse stdout with
  | some p =>
    match jvField p "response" with
    | some rv => { response := jsOrEmptyStr rv, stats := jvField p "stats" }
    | none => specBalancedFallback stdout
  | none => specBalancedFallback stdout

/-- What the invocation lifecycle observes of its subprocess by the time
the `Promise.race` of the close event against the timeout settles:
`closeCode = some c` when the close event won carrying exit code `c`
(`c = none` is JavaScript `null`, e.g. a signal-killed child), and
`closeCode = none` when the timer fired first; plus the stdout/stderr
accumulated so far and the elapsed duration. -/
structure ProcObs where
  closeCode : Option (Option Int)
  stdoutAcc : String
  stderrAcc : String
  durationMs : Nat

/-- The payload common to `CodexInvocationError`,
`ContinueInvocationError` and `GeminiInvocationError`: message, exit code
(−1 sentinel for timeout/spawn failure), and captured streams. -/
structure InvocationError where
  message : String
  exitCode : Int
  stdout : String
  stderr : String

/-- `CodexInvocationResponse` from src/codexAgent.ts. -/
structure CodexInvocationResponse where
  exitCode : Int
  durationMs : Nat
  stdout : String
  stderr : String
  parsedEvents : List JVal
  assistantReply : String

/-- `ContinueInvocationResponse` from src/continueAgent.ts. -/
structure ContinueInvocationResponse where
  exitCode : Int
  durationMs : Nat
  stdout : String
  stderr : String
  response : String

/-- `GeminiInvocationResponse` from src/geminiAgent.ts. -/
structure GeminiInvocationResponse where
  exitCode : Int
  durationMs : Nat
  stdout : String
  stderr : String
  response : JVal
  stats : Option JVal

/-- Outcome of one invocation lifecycle run: whether `child.kill` was
issued by the timeout handler, and the settled result. -/
structure InvokeRun (A : Type) where
  killSent : Bool
  result : Except InvocationError A

/-- Default timeout, 30 minutes, shared by all three agents. -/
def DEFAULT_TIMEOUT_MS : Nat := 30 * 60 * 1000

/-- `invokeCodex` from the spawn onward (src/codexAgent.ts): race the
close event against the timer; on timeout kill unconditionally and fail
with the −1 sentinel and accumulated streams; on close substitute 0 for a
null code, fail on non-zero, otherwise parse the JSON lines and the
assistant reply. -/
def invokeCodex (timeout? : Option Nat) (obs : ProcObs) : InvokeRun CodexInvocationResponse :=
  let timeoutMs := timeout?.getD DEFAULT_TIMEOUT_MS
  match obs.closeCode with
  | none =>
    { killSent := true
      result := .error { message := "Codex invocation timed out after " ++ toString timeoutMs ++ "ms",
                         exitCode := -1, stdout := obs.stdoutAcc, stderr := obs.stderrAcc } }
  | some code =>
    let exitCode := code.getD 0
    if exitCode ≠ 0 then
      { killSent := false
        result := .error { message := "Codex exited with code " ++ toString exitCode,
                           exitCode := exitCode, stdout := obs.stdoutAcc, stderr := obs.stderrAcc } }
    else
      { killSent := false
        result := .ok { exitCode := exitCode, durationMs := obs.durationMs,
                        stdout := obs.stdoutAcc, stderr := obs.stderrAcc,
                        parsedEvents := parseJsonLines obs.stdoutAcc,
                        assistantReply := parseAssistantReply (parseJsonLines obs.stdoutAcc) } }

/-- `invokeContinue` (src/continueAgent.ts): a missing
`CONTINUE_CONFIG_PATH` fails with the −1 sentinel before any spawn;
otherwise the same race/classification as the other agents, with the
trimmed stdout as response. -/
def invokeContinue (timeout? : Option Nat) (configPath : Option String) (obs : ProcObs) :
    InvokeRun ContinueInvocationResponse :=
  match configPath with
  | none =>
    { killSent := false
      result := .error { message := "CONTINUE_CONFIG_PATH environment variable is required",
                         exitCode := -1, stdout := "",
                         stderr := "Missing CONTINUE_CONFIG_PATH environment variable" } }
  | some _ =>
    let timeoutMs := timeout?.getD DEFAULT_TIMEOUT_MS
    match obs.closeCode with
    | none =>
      { killSent := true
        result := .error { message := "Continue invocation timed out after " ++ toString timeoutMs ++ "ms",
                           exitCode := -1, stdout := obs.stdoutAcc, stderr := obs.stderrAcc } }
    | some code =>
      let exitCode := code.getD 0
      if exitCode ≠ 0 then
        { killSent := false
          result := .error { message := "Continue exited with code " ++ toString exitCode,
                             exitCode := exitCode, stdout := obs.stdoutAcc, stderr := obs.stderrAcc } }
      else
        { killSent := false
          result := .ok { exitCode := exitCode, durationMs := obs.durationMs,
                          stdout := obs.stdoutAcc, stderr := obs.stderrAcc,
                          response := jsTrim obs.stdoutAcc } }

/-- `invokeGemini` (src/geminiAgent.ts): same race/classification, with
`parseGeminiResponse` recovering the response on success. -/
def invokeGemini (timeout? : Option Nat) (obs : ProcObs) : InvokeRun GeminiInvocationResponse :=
  let timeoutMs := timeout?.getD DEFAULT_TIMEOUT_MS
  match obs.closeCode with
  | none =>
    { killSent := true
      result := .error { message := "Gemini invocation timed out after " ++ toString timeoutMs ++ "ms",
                         exitCode := -1, stdout := obs.stdoutAcc, stderr := obs.stderrAcc } }
  | some code =>
    let exitCode := code.getD 0
    if exitCode ≠ 0 then
      { killSent := false
        result := .error { message := "Gemini exited with code " ++ toString exitCode,
                           exitCode := exitCode, stdout := obs.stdoutAcc, stderr := obs.stderrAcc } }
    else
      { killSent := false
        result := .ok { exitCode := exitCode, durationMs := obs.durationMs,
                        stdout := obs.stdoutAcc, stderr := obs.stderrAcc,
                        response := (parseGeminiResponse obs.stdoutAcc).response,
                        stats := (parseGeminiResponse obs.stdoutAcc).stats } }

/-- State of one heartbeat controller together with its timer world: the
controller's `intervalHandle` and `counter`, plus which interval timers
are currently scheduled (a timer in `activeTimers` keeps firing
notifications) and a fresh-id counter. -/
structure HbState where
  intervalHandle : Option Nat
  counter : Nat
  nextTimerId : Nat
  activeTimers : List Nat
deriving Repr, DecidableEq

/-- State right after `createHeartbeat`: no interval scheduled,
counter 1. -/
def hbInit : HbState :=
  { intervalHandle := none, counter := 1, nextTimerId := 0, activeTimers := [] }

/-- `start()` from src/heartbeat.ts: a no-op without a progress token;
otherwise `setInterval` schedules a fresh timer and its handle OVERWRITES
`intervalHandle` (a previously stored handle is not cleared). -/
def hbStart (hasToken : Bool) (s : HbState) : HbState :=
  if !hasToken then s
  else
    { intervalHandle := some s.nextTimerId
      counter := s.counter
      nextTimerId := s.nextTimerId + 1
      activeTimers := s.activeTimers ++ [s.nextTimerId] }

/-- `stop()` from src/heartbeat.ts: `clearInterval` on the stored handle,
if any, then null it. -/
def hbStop (s : HbState) : HbState :=
  match s.intervalHandle with
  | some tid =>
    { s with intervalHandle := none, activeTimers := s.activeTimers.erase tid }
  | none => s

/-- Steps of an invocation lifecycle that matter for registration order:
process spawn, registry registration, heartbeat start, attaching a stream
data listener (starts reading), writing/closing stdin, and awaiting the
close/timeout race. -/
inductive LifecycleEvent where
  | spawn
  | register
  | heartbeatStart
  | attachStdout
  | attachStderr
  | stdinWrite
  | stdinEnd
  | awaitRace
deriving Repr, DecidableEq

/-- The three external agent kinds. -/
inductive AgentKind where
  | codex
  | continueAgent
  | gemini
deriving Repr, DecidableEq

/-- Straight-line order of `invokeCodex` (src/codexAgent.ts lines
180–217): spawn, `registerProcess`, heartbeat start, stream listeners,
stdin write and end, race. -/
def codexTrace : List LifecycleEvent :=
  [.spawn, .register, .heartbeatStart, .attachStdout, .attachStderr,
   .stdinWrite, .stdinEnd, .awaitRace]

/-- Straight-line order of `invokeContinue` (src/continueAgent.ts lines
94–132): the prompt travels in argv, so stdin is only closed. -/
def continueTrace : List LifecycleEvent :=
  [.spawn, .register, .heartbeatStart, .attachStdout, .attachStderr,
   .stdinEnd, .awaitRace]

/-- Straight-line order of `invokeGemini` (src/geminiAgent.ts lines
113–145): no `registerProcess` call appears anywhere in this lifecycle. -/
def geminiTrace : List LifecycleEvent :=
  [.spawn, .attachStdout, .attachStderr, .stdinEnd, .awaitRace]

/-- Events that perform I/O on the child or await it. -/
def isIOEvent : LifecycleEvent → Bool
  | .attachStdout => true
  | .attachStderr => true
  | .stdinWrite => true
  | .stdinEnd => true
  | .awaitRace => true
  | _ => false

/-- The trace registers the process before performing any I/O on it. -/
def regBeforeIO : List LifecycleEvent → Bool
  | [] => false
  | e :: rest =>
    if e = .register then true
    else if isIOEvent e then false
    else regBeforeIO rest

/-- The lifecycle trace of each agent kind. -/
def traceOf : AgentKind → List LifecycleEvent
  | .codex => codexTrace
  | .continueAgent => continueTrace
  | .gemini => geminiTrace

/-- One prompt record handed to the batch runner's worker
(`input.inputs[i]` in src/runner.ts). -/
structure PromptTask where
  agent : Option String
  prompt : String
  extraArgs : Option (List String)
  timeoutMs : Option Nat
  workingDirectory : Option String

/-- Placeholder prompt used only for the out-of-range default of
`List.getD`; every index the scheduler touches is in range. -/
def dfltPromptTask : PromptTask :=
  { agent := none, prompt := "", extraArgs := none, timeoutMs := none,
    workingDirectory := none }

/-- How one `invokeCodex` call inside the batch worker settles: success,
a thrown `CodexInvocationError` (spawn failure, non-zero exit or
timeout), or any other thrown error. -/
inductive CodexOutcome where
  | ok (r : CodexInvocationResponse)
  | invocationErr (e : InvocationError)
  | otherErr (msg : String)

/-- The success shape of `AgentInvocationResult` (fields the worker
populates; `rawEvents`, `rawOutput` and `stderr` are set to undefined). -/
structure AgentSuccessRecord where
  agent : Option String
  prompt : String
  tool : String
  response : String
  exitCode : Int
  durationMs : Nat

/-- The error shape of `AgentInvocationResult`. -/
structure AgentErrorRecord where
  agent : Option String
  prompt : String
  tool : String
  error : String
  exitCode : Option Int
  rawOutput : Option String
  stderr : Option String

/-- `AgentInvocationResult` from src/types.ts: a discriminated union on
`status`. -/
inductive AgentInvocationResult where
  | ok (rec : AgentSuccessRecord)
  | error (rec : AgentErrorRecord)

/-- The `status` discriminant of a result record. -/
def resultStatus : AgentInvocationResult → String
  | .ok _ => "ok"
  | .error _ => "error"

/-- The worker closure of `runCodexBatch` (src/runner.ts lines 49–101):
every invocation outcome is converted into exactly one structured record —
success keeps `assistantReply || stdout`, a `CodexInvocationError` keeps
its exit code and streams, any other error keeps only its message.  The
function is total: no outcome escapes as a rejection. -/
def codexWorker (p : PromptTask) (out : CodexOutcome) : AgentInvocationResult :=
  match out with
  | .ok r =>
    .ok { agent := p.agent, prompt := p.prompt, tool := "codex",
          response := if r.assistantReply.isEmpty then r.stdout else r.assistantReply,
          exitCode := r.exitCode, durationMs := r.durationMs }
  | .invocationErr e =>
    .error { agent := p.agent, prompt := p.prompt, tool := "codex", error := e.message,
             exitCode := some e.exitCode, rawOutput := some e.stdout, stderr := some e.stderr }
  | .otherErr m =>
    .error { agent := p.agent, prompt := p.prompt, tool := "codex", error := m,
             exitCode := none, rawOutput := none, stderr := none }

/-- `runCodexBatch` from src/runner.ts: clamp the concurrency to
`min(requested ?? N, N)` and run the workers through the scheduler;
`outcome i` is how task `i`'s invocation settles. -/
def runCodexBatch (tasks : List PromptTask) (concurrency? : Option Nat)
    (outcome : Nat → CodexOutcome) (sched : List Nat) :
    Option (List (Option AgentInvocationResult)) :=
  let concurrency := min (concurrency?.getD tasks.length) tasks.length
  runWithConcurrency concurrency tasks.length
    (fun i => codexWorker (tasks.getD i dfltPromptTask) (outcome i)) sched

/-- The success value `invokeCodex` returns for a zero exit code:
parsed JSON-line events and the reconstructed assistant reply. -/
def codexSuccess (obs : ProcObs) : CodexInvocationResponse :=
  { exitCode := 0, durationMs := obs.durationMs, stdout := obs.stdoutAcc,
    stderr := obs.stderrAcc, parsedEvents := parseJsonLines obs.stdoutAcc,
    assistantReply := parseAssistantReply (parseJsonLines obs.stdoutAcc) }

/-- The success value `invokeContinue` returns for a zero exit code:
the trimmed stdout. -/
def continueSuccess (obs : ProcObs) : ContinueInvocationResponse :=
  { exitCode := 0, durationMs := obs.durationMs, stdout := obs.stdoutAcc,
    stderr := obs.stderrAcc, response := jsTrim obs.stdoutAcc }

/-- The success value `invokeGemini` returns for a zero exit code:
the recovered response and stats. -/
def geminiSuccess (obs : ProcObs) : GeminiInvocationResponse :=
  { exitCode := 0, durationMs := obs.durationMs, stdout := obs.stdoutAcc,
    stderr := obs.stderrAcc, response := (parseGeminiResponse obs.stdoutAcc).response,
    stats := (parseGeminiResponse obs.stdoutAcc).stats }

/-- The three-line stdout of the spec's newline-delimited-JSON test:
two top-level `agent_message` events around one unparsable line. -/
def exSpecC6 : String :=
  "\x7b\"type\":\"agent_message\",\"message\":\"hi\"\x7d\nnot-json\n\x7b\"type\":\"agent_message\",\"message\":\"bye\"\x7d"

/-- The same three lines with the `agent_message` objects nested under a
`msg` property, the shape `parseAssistantReply` actually collects. -/
def exNestedC6 : String :=
  "\x7b\"msg\":\x7b\"type\":\"agent_message\",\"message\":\"hi\"\x7d\x7d\nnot-json\n\x7b\"msg\":\x7b\"type\":\"agent_message\",\"message\":\"bye\"\x7d\x7d"

/-- A parsed top-level `agent_message` event. -/
def evAgentMessage (m : String) : JVal :=
  .obj [("type", .str "agent_message"), ("message", .str m)]

/-- Gemini stdout whose first balanced brace span parses with a
`response` field, but whose first-brace-to-last-brace substring does
not parse. -/
def gemCexIn : String := "\x7b\"response\":\"hi\"\x7d trailing\x7d"

/-- Gemini stdout that parses whole with a `response` field. -/
def gemWhole : String := "\x7b\"response\":\"hi\"\x7d"

/-- Gemini stdout with a junk prefix so only the brace-substring
fallback recovers the `response` field. -/
def gemWrapped : String := "x\x7b\"response\":\"hi\"\x7d"

/-- Gemini stdout with no recoverable JSON at all. -/
def gemPlain : String := "plain"

/-- Observation of a run whose timer fired first. -/
def obsTimeout : ProcObs :=
  { closeCode := none, stdoutAcc := "out", stderrAcc := "err", durationMs := 3 }

/-- Observation of a run whose subprocess exited with code 2. -/
def obsExit2 : ProcObs :=
  { closeCode := some (some 2), stdoutAcc := "partial-out", stderrAcc := "partial-err",
    durationMs := 4 }

/-- Observation of a run whose subprocess closed with a null exit code
(terminated by a signal). -/
def obsNullCode : ProcObs :=
  { closeCode := some none, stdoutAcc := "sig-out", stderrAcc := "sig-err", durationMs := 5 }

/-- A one-prompt task for concrete batch runs. -/
def taskA : PromptTask :=
  { agent := none, prompt := "p", extraArgs := none, timeoutMs := none,
    workingDirectory := none }

theorem launchLoop_results (limit N : Nat) :
    ∀ (fuel : Nat) (s : SchedState R), (launchLoop limit N fuel s).results = s.results := by
  intro fuel
  induction fuel with
  | zero => intro s; rfl
  | succ fuel ih =>
    intro s
    rw [launchLoop]
    split
    · exact ih _
    · rfl

theorem launchLoop_nextIndex_le (limit N : Nat) :
    ∀ (fuel : Nat) (s : SchedState R), s.nextIndex ≤ (launchLoop limit N fuel s).nextIndex := by
  intro fuel
  induction fuel with
  | zero => intro s; exact Nat.le_refl _
  | succ fuel ih =>
    intro s
    rw [launchLoop]
    split
    · have := ih { nextIndex := s.nextIndex + 1, active := s.active ++ [s.nextIndex],
                   results := s.results }
      dsimp only at this
      omega
    · exact Nat.le_refl _

theorem launchLoop_keep (limit N : Nat) :
    ∀ (fuel : Nat) (s : SchedState R), s.nextIndex ≤ N →
      (launchLoop limit N fuel s).nextIndex ≤ N ∧
        pending N (launchLoop limit N fuel s) = pending N s := by
  intro fuel
  induction fuel with
  | zero => intro s h; exact ⟨h, rfl⟩
  | succ fuel ih =>
    intro s h
    rw [launchLoop]
    split
    · rename_i hc
      have h1 : s.nextIndex + 1 ≤ N := hc.2
      have := ih { nextIndex := s.nextIndex + 1, active := s.active ++ [s.nextIndex],
                   results := s.results } h1
      refine ⟨this.1, ?_⟩
      rw [this.2]
      show (N - (s.nextIndex + 1)) + (s.active ++ [s.nextIndex]).length
        = (N - s.nextIndex) + s.active.length
      rw [List.length_append, List.length_singleton]
      have h2 : s.nextIndex < N := hc.2
      omega
    · exact ⟨h, rfl⟩

theorem launchLoop_stop (limit N : Nat) :
    ∀ (fuel : Nat) (s : SchedState R), N ≤ s.nextIndex + fuel →
      limit ≤ (launchLoop limit N fuel s).active.length ∨
        N ≤ (launchLoop limit N fuel s).nextIndex := by
  intro fuel
  induction fuel with
  | zero => intro s h; right; simpa using h
  | succ fuel ih =>
    intro s h
    rw [launchLoop]
    split
    · refine ih { nextIndex := s.nextIndex + 1, active := s.active ++ [s.nextIndex],
                  results := s.results } ?_
      show N ≤ s.nextIndex + 1 + fuel
      omega
    · rename_i hc
      rcases Decidable.not_and_iff_or_not.mp hc with h1 | h2
      · left; omega
      · right; omega

theorem launchLoop_inv (limit N : Nat) (res : Nat → R) :
    ∀ (fuel : Nat) (s : SchedState R), SchedInv limit N res s →
      SchedInv limit N res (launchLoop limit N fuel s) := by
  intro fuel
  induction fuel with
  | zero => intro s h; exact h
  | succ fuel ih =>
    intro s h
    rw [launchLoop]
    split
    · rename_i hc
      refine ih _ ?_
      refine ⟨h.results_len, hc.2, ?_, ?_, ?_, ?_⟩
      · rw [List.nodup_append]
        refine ⟨h.nodup, List.nodup_singleton _, ?_⟩
        intro a ha hb
        have := h.active_lt a ha
        simp only [List.mem_singleton] at hb
        omega
      · intro i hi
        dsimp only
        dsimp only at hi
        rcases List.mem_append.mp hi with h1 | h2
        · exact Nat.lt_succ_of_lt (h.active_lt i h1)
        · simp only [List.mem_singleton] at h2
          omega
      · have := h.active_le_limit
        have hlt := hc.1
        dsimp only
        simp only [List.length_append, List.length_singleton]
        omega
      · intro i hi hmem
        dsimp only at hi hmem ⊢
        simp only [List.mem_append, List.mem_singleton] at hmem
        push_neg at hmem
        have hne : i ≠ s.nextIndex := hmem.2
        exact h.results_done i (by omega) hmem.1
    · exact h

theorem launchNext_inv (limit N : Nat) (res : Nat → R) (s : SchedState R)
    (h : SchedInv limit N res s) : SchedInv limit N res (launchNext limit N s) :=
  launchLoop_inv limit N res _ s h

theorem launchNext_sat (limit N : Nat) (res : Nat → R) (s : SchedState R)
    (h : SchedInv limit N res s) : Sat limit N (launchNext limit N s) := by
  have hstop := launchLoop_stop (R := R) limit N (N - s.nextIndex) s (by omega)
  have hinv := launchNext_inv limit N res s h
  rcases hstop with h1 | h2
  · left
    exact Nat.le_antisymm hinv.active_le_limit h1
  · right
    exact Nat.le_antisymm hinv.next_le h2

theorem initState_inv (limit N : Nat) (res : Nat → R) :
    SchedInv limit N res (initState (R := R) N) := by
  refine ⟨?_, ?_, ?_, ?_, ?_, ?_⟩
  · simp [initState]
  · simp [initState]
  · simp [initState]
  · simp [initState]
  · simp [initState]
  · intro i hi
    simp [initState] at hi

theorem active_length_pos (s : SchedState R) (hne : ¬s.active.isEmpty) :
    0 < s.active.length := by
  cases h : s.active with
  | nil => rw [h] at hne; simp at hne
  | cons a t => simp [h]

theorem pickedIndex_mem (s : SchedState R) (k : Nat) (hne : ¬s.active.isEmpty) :
    s.active.getD (k % s.active.length) 0 ∈ s.active := by
  have hpos := active_length_pos s hne
  have hlt : k % s.active.length < s.active.length := Nat.mod_lt _ hpos
  rw [List.getD_eq_getElem _ _ hlt]
  exact List.getElem_mem hlt

/-- Invariant of the bookkeeping state right after one worker settles
(result written at its index, its index removed from the in-flight set)
but before `launchNext` refills. -/
theorem completeState_inv (limit N : Nat) (res : Nat → R) (s : SchedState R) (idx : Nat)
    (h : SchedInv limit N res s) (hmem : idx ∈ s.active) :
    SchedInv limit N res
      { nextIndex := s.nextIndex, active := s.active.erase idx,
        results := s.results.set idx (some (res idx)) } := by
  have hidxlt : idx < s.nextIndex := h.active_lt idx hmem
  refine ⟨?_, h.next_le, h.nodup.erase idx, ?_, ?_, ?_⟩
  · show (s.results.set idx (some (res idx))).length = N
    rw [List.length_set]
    exact h.results_len
  · intro i hi
    exact h.active_lt i (List.mem_of_mem_erase hi)
  · show (s.active.erase idx).length ≤ limit
    calc (s.active.erase idx).length ≤ s.active.length := (s.active.erase_sublist idx).length_le
      _ ≤ limit := h.active_le_limit
  · intro i hi hmem2
    have hi' : i < s.nextIndex := hi
    show (s.results.set idx (some (res idx)))[i]? = some (some (res i))
    by_cases hieq : i = idx
    · rw [hieq, List.getElem?_set_self]
      have hle := h.next_le
      have hlen : idx < s.results.length := by rw [h.results_len]; omega
      simp [hlen, hieq]
    · rw [List.getElem?_set_ne (fun hcon => hieq hcon.symm)]
      refine h.results_done i hi ?_
      intro hcon
      exact hmem2 ((List.mem_erase_of_ne hieq).mpr hcon)

theorem schedStep_inv (limit N : Nat) (res : Nat → R) (k : Nat) (s : SchedState R)
    (h : SchedInv limit N res s) : SchedInv limit N res (schedStep limit N res k s) := by
  rw [schedStep]
  split
  · exact h
  · rename_i hne
    exact launchNext_inv limit N res _
      (completeState_inv limit N res s _ h (pickedIndex_mem s k hne))

theorem schedStep_sat (limit N : Nat) (res : Nat → R) (k : Nat) (s : SchedState R)
    (h : SchedInv limit N res s) (hs : Sat limit N s) :
    Sat limit N (schedStep limit N res k s) := by
  rw [schedStep]
  split
  · exact hs
  · rename_i hne
    exact launchNext_sat limit N res _
      (completeState_inv limit N res s _ h (pickedIndex_mem s k hne))

theorem schedStep_pending (limit N : Nat) (res : Nat → R) (k : Nat) (s : SchedState R)
    (h : SchedInv limit N res s) (hne : ¬s.active.isEmpty) :
    pending N (schedStep limit N res k s) + 1 = pending N s := by
  rw [schedStep]
  rw [if_neg hne]
  set idx := s.active.getD (k % s.active.length) 0 with hidx
  have hmem : idx ∈ s.active := pickedIndex_mem s k hne
  have hkeep := launchLoop_keep (R := R) limit N
    (N - ({ nextIndex := s.nextIndex, active := s.active.erase idx,
            results := s.results.set idx (some (res idx)) } : SchedState R).nextIndex)
    { nextIndex := s.nextIndex, active := s.active.erase idx,
      results := s.results.set idx (some (res idx)) } h.next_le
  rw [launchNext, hkeep.2]
  show (N - s.nextIndex) + (s.active.erase idx).length + 1
    = (N - s.nextIndex) + s.active.length
  rw [List.length_erase_of_mem hmem]
  have hpos := active_length_pos s hne
  omega

theorem schedStep_launches (limit N : Nat) (res : Nat → R) (k : Nat) (s : SchedState R)
    (h : SchedInv limit N res s) (hne : ¬s.active.isEmpty) (hlt : s.nextIndex < N) :
    s.nextIndex < (schedStep limit N res k s).nextIndex := by
  rw [schedStep]
  rw [if_neg hne]
  set idx := s.active.getD (k % s.active.length) 0 with hidx
  have hmem : idx ∈ s.active := pickedIndex_mem s k hne
  have hpos := active_length_pos s hne
  rw [launchNext]
  show s.nextIndex < (launchLoop limit N (N - s.nextIndex) _).nextIndex
  have hfuel : ∃ m, N - s.nextIndex = m + 1 := ⟨N - s.nextIndex - 1, by omega⟩
  obtain ⟨m, hm⟩ := hfuel
  rw [hm, launchLoop]
  rw [if_pos ?_]
  · have hmono := launchLoop_nextIndex_le (R := R) limit N m
      { nextIndex := s.nextIndex + 1,
        active := s.active.erase idx ++ [s.nextIndex],
        results := s.results.set idx (some (res idx)) }
    dsimp only at hmono ⊢
    omega
  · constructor
    · show (s.active.erase idx).length < limit
      rw [List.length_erase_of_mem hmem]
      have := h.active_le_limit
      omega
    · exact hlt

theorem isDone_of_pending_zero (N : Nat) (s : SchedState R)
    (h : pending N s = 0) : isDone N s = true := by
  rw [isDone]
  rw [pending] at h
  have h1 : N - s.nextIndex = 0 := by omega
  have h2 : s.active.length = 0 := by omega
  rw [List.length_eq_zero] at h2
  simp [h2]
  omega

theorem spec_of_done (limit N : Nat) (res : Nat → R) (s : SchedState R)
    (h : SchedInv limit N res s) (hd : isDone N s = true) :
    s.results.length = N ∧ ∀ i, i < N → s.results[i]? = some (some (res i)) := by
  rw [isDone, Bool.and_eq_true, decide_eq_true_eq, List.isEmpty_iff] at hd
  have hnext : s.nextIndex = N := Nat.le_antisymm h.next_le hd.1
  refine ⟨h.results_len, fun i hi => ?_⟩
  refine h.results_done i (by omega) ?_
  rw [hd.2]
  exact List.not_mem_nil i

theorem notDone_active_ne (limit N : Nat) (res : Nat → R) (s : SchedState R)
    (h : SchedInv limit N res s) (hs : Sat limit N s) (hlim : 1 ≤ limit)
    (hd : isDone N s = false) : ¬s.active.isEmpty := by
  intro hcon
  rw [isDone] at hd
  simp only [hcon, Bool.and_true, decide_eq_false_iff_not, Nat.not_le] at hd
  rcases hs with h1 | h2
  · have hzero : s.active.length = 0 := by
      rw [List.isEmpty_iff] at hcon
      simp [hcon]
    omega
  · omega

theorem schedRun_complete (limit N : Nat) (res : Nat → R) :
    ∀ (sched : List Nat) (s : SchedState R), SchedInv limit N res s → Sat limit N s →
      1 ≤ limit → pending N s ≤ sched.length →
      ∃ r, schedRun limit N res sched s = some r ∧ r.length = N ∧
        ∀ i, i < N → r[i]? = some (some (res i)) := by
  intro sched
  induction sched with
  | nil =>
    intro s hinv _ _ hpend
    have hp : pending N s = 0 := by simpa using hpend
    have hd := isDone_of_pending_zero N s hp
    refine ⟨s.results, ?_, spec_of_done limit N res s hinv hd⟩
    rw [schedRun, if_pos hd]
  | cons k rest ih =>
    intro s hinv hsat hlim hpend
    rw [schedRun]
    by_cases hd : isDone N s = true
    · refine ⟨s.results, ?_, spec_of_done limit N res s hinv hd⟩
      rw [if_pos hd]
    · have hdf : isDone N s = false := by
        cases h : isDone N s
        · rfl
        · exact absurd h hd
      rw [if_neg hd]
      have hne := notDone_active_ne limit N res s hinv hsat hlim hdf
      have hstep := schedStep_pending limit N res k s hinv hne
      refine ih (schedStep limit N res k s)
        (schedStep_inv limit N res k s hinv)
        (schedStep_sat limit N res k s hinv hsat) hlim ?_
      simp only [List.length_cons] at hpend
      omega

theorem foldl_invsat (limit N : Nat) (res : Nat → R) :
    ∀ (sched : List Nat) (s : SchedState R), SchedInv limit N res s → Sat limit N s →
      SchedInv limit N res (sched.foldl (fun s k => schedStep limit N res k s) s) ∧
        Sat limit N (sched.foldl (fun s k => schedStep limit N res k s) s) := by
  intro sched
  induction sched with
  | nil => intro s hi hs; exact ⟨hi, hs⟩
  | cons k rest ih =>
    intro s hi hs
    exact ih (schedStep limit N res k s)
      (schedStep_inv limit N res k s hi) (schedStep_sat limit N res k s hi hs)

theorem startState_inv (limit N : Nat) (res : Nat → R) :
    SchedInv limit N res (launchNext limit N (initState (R := R) N)) :=
  launchNext_inv limit N res _ (initState_inv limit N res)

theorem startState_sat (limit N : Nat) (res : Nat → R) :
    Sat limit N (launchNext limit N (initState (R := R) N)) :=
  launchNext_sat limit N res _ (initState_inv limit N res)

theorem startState_pending (limit N : Nat) (res : Nat → R) :
    pending N (launchNext limit N (initState (R := R) N)) = N := by
  have hkeep := launchLoop_keep (R := R) limit N (N - 0) (initState N) (by simp [initState])
  rw [launchNext]
  show pending N (launchLoop limit N (N - (initState (R := R) N).nextIndex) (initState N)) = N
  have hinit : (initState (R := R) N).nextIndex = 0 := rfl
  rw [hinit]
  rw [hkeep.2]
  show (N - 0) + 0 = N
  omega

theorem stateAfter_inv (limit N : Nat) (res : Nat → R) (sched : List Nat) :
    SchedInv limit N res (stateAfter limit N res sched) ∧
      Sat limit N (stateAfter limit N res sched) :=
  foldl_invsat limit N res sched _ (startState_inv limit N res) (startState_sat limit N res)

/-- C1 (amended: limit at least 1).  For every task count `N`, every limit
`K ≥ 1`, every pure worker outcome and every completion order with at
least `N` completions, `runWithConcurrency` resolves with a results array
of length `N` whose entry at index `i` is exactly the worker's value for
`tasks[i]` — independent of the completion order `sched`. -/
theorem claim1_scheduler_ordered_results {R : Type} (limit N : Nat) (res : Nat → R)
    (sched : List Nat) (hlim : 1 ≤ limit) (hsched : N ≤ sched.length) :
    ∃ r, runWithConcurrency limit N res sched = some r ∧ r.length = N ∧
      ∀ i, i < N → r[i]? = some (some (res i)) := by
  show ∃ r, schedRun limit N res sched (launchNext limit N (initState N)) = some r ∧
    r.length = N ∧ ∀ i, i < N → r[i]? = some (some (res i))
  refine schedRun_complete limit N res sched _ (startState_inv limit N res)
    (startState_sat limit N res) hlim ?_
  rw [startState_pending limit N res]
  exact hsched

/-- C1 counterexample: with limit 0 and one task the scheduler never
resolves (the dispatch loop never starts a worker), so the claim is false
for arbitrary limits. -/
theorem claim1_cex_limit_zero :
    runWithConcurrency 0 1 (fun _ => (0 : Nat)) [0] = none := rfl

/-- C1 witness: concrete run with two tasks at limit 1. -/
theorem claim1_witness :
    (1 ≤ 1 ∧ 2 ≤ ([0, 0] : List Nat).length) ∧
      ∃ r, runWithConcurrency 1 2 (fun i => i) [0, 0] = some r ∧ r.length = 2 ∧
        ∀ i, i < 2 → r[i]? = some (some i) :=
  ⟨by decide, claim1_scheduler_ordered_results 1 2 (fun i => i) [0, 0] (by decide) (by decide)⟩

/-- C2.  With limit `K ≥ 1`: (a) at every step of every execution the
in-flight count never exceeds `K`; (b) whenever a worker settles while
undispatched tasks remain, at least one new worker is launched; (c) the
scheduler resolves as soon as every task has been dispatched and the
active count is zero; (d) it does not resolve otherwise (with no further
settlements pending, a non-done state yields no resolution). -/
theorem claim2_bounded_relaunch_termination {R : Type} (limit N : Nat) (res : Nat → R)
    (sched : List Nat) (hlim : 1 ≤ limit) :
    (∀ j, (stateAfter limit N res (sched.take j)).active.length ≤ limit) ∧
    (∀ j k, ¬(stateAfter limit N res (sched.take j)).active.isEmpty →
      (stateAfter limit N res (sched.take j)).nextIndex < N →
      (stateAfter limit N res (sched.take j)).nextIndex <
        (schedStep limit N res k (stateAfter limit N res (sched.take j))).nextIndex) ∧
    (∀ s : SchedState R, isDone N s = true → schedRun limit N res sched s = some s.results) ∧
    (∀ s : SchedState R, isDone N s = false → schedRun limit N res [] s = none) := by
  refine ⟨?_, ?_, ?_, ?_⟩
  · intro j
    exact (stateAfter_inv limit N res (sched.take j)).1.active_le_limit
  · intro j k hne hlt
    exact schedStep_launches limit N res k _ (stateAfter_inv limit N res (sched.take j)).1 hne hlt
  · intro s hd
    cases sched with
    | nil => rw [schedRun, if_pos hd]
    | cons k rest => rw [schedRun, if_pos hd]
  · intro s hd
    rw [schedRun, if_neg (by rw [hd]; intro hcon; exact Bool.false_ne_true hcon)]

/-- C2 witness: concrete execution with three tasks at limit 2. -/
theorem claim2_witness :
    1 ≤ 2 ∧
      (stateAfter 2 3 (fun i => i) (([0] : List Nat).take 1)).active.length ≤ 2 ∧
      schedRun 2 0 (fun i => i) [0] (initState 0) = some (initState (R := Nat) 0).results :=
  ⟨by decide,
   (claim2_bounded_relaunch_termination 2 3 (fun i => i) [0] (by decide)).1 1,
   (claim2_bounded_relaunch_termination 2 0 (fun i => i) [0] (by decide)).2.2.1
     (initState 0) (by decide)⟩

/-- C3.  For every invocation (all three agent kinds) whose timeout timer
fires before the close event, the child receives the unconditional kill
and the lifecycle fails with an `InvocationError` whose exit code is −1,
whose message contains the configured timeout value, and which carries
the streams accumulated so far. -/
theorem claim3_timeout_kill_minus_one (tmo : Option Nat) (cfg : String) (obs : ProcObs)
    (h : obs.closeCode = none) :
    ((invokeCodex tmo obs).killSent = true ∧
      ∃ e, (invokeCodex tmo obs).result = .error e ∧ e.exitCode = -1 ∧
        e.stdout = obs.stdoutAcc ∧ e.stderr = obs.stderrAcc ∧
        ∃ pre post, e.message = pre ++ toString (tmo.getD DEFAULT_TIMEOUT_MS) ++ post) ∧
    ((invokeContinue tmo (some cfg) obs).killSent = true ∧
      ∃ e, (invokeContinue tmo (some cfg) obs).result = .error e ∧ e.exitCode = -1 ∧
        e.stdout = obs.stdoutAcc ∧ e.stderr = obs.stderrAcc ∧
        ∃ pre post, e.message = pre ++ toString (tmo.getD DEFAULT_TIMEOUT_MS) ++ post) ∧
    ((invokeGemini tmo obs).killSent = true ∧
      ∃ e, (invokeGemini tmo obs).result = .error e ∧ e.exitCode = -1 ∧
        e.stdout = obs.stdoutAcc ∧ e.stderr = obs.stderrAcc ∧
        ∃ pre post, e.message = pre ++ toString (tmo.getD DEFAULT_TIMEOUT_MS) ++ post) := by
  refine ⟨⟨?_, ?_⟩, ⟨?_, ?_⟩, ⟨?_, ?_⟩⟩
  · simp [invokeCodex, h]
  · refine ⟨{ message :=
                "Codex invocation timed out after " ++
                  toString (tmo.getD DEFAULT_TIMEOUT_MS) ++ "ms"
              exitCode := -1
              stdout := obs.stdoutAcc
              stderr := obs.stderrAcc },
      ?_, rfl, rfl, rfl, "Codex invocation timed out after ", "ms", rfl⟩
    simp [invokeCodex, h]
  · simp [invokeContinue, h]
  · refine ⟨{ message :=
                "Continue invocation timed out after " ++
                  toString (tmo.getD DEFAULT_TIMEOUT_MS) ++ "ms"
              exitCode := -1
              stdout := obs.stdoutAcc
              stderr := obs.stderrAcc },
      ?_, rfl, rfl, rfl, "Continue invocation timed out after ", "ms", rfl⟩
    simp [invokeContinue, h]
  · simp [invokeGemini, h]
  · refine ⟨{ message :=
                "Gemini invocation timed out after " ++
                  toString (tmo.getD DEFAULT_TIMEOUT_MS) ++ "ms"
              exitCode := -1
              stdout := obs.stdoutAcc
              stderr := obs.stderrAcc },
      ?_, rfl, rfl, rfl, "Gemini invocation timed out after ", "ms", rfl⟩
    simp [invokeGemini, h]

/-- C3 witness: a concrete timed-out observation with a 5ms timeout. -/
theorem claim3_witness :
    obsTimeout.closeCode = none ∧
      ((invokeCodex (some 5) obsTimeout).killSent = true ∧
        ∃ e, (invokeCodex (some 5) obsTimeout).result = .error e ∧ e.exitCode = -1 ∧
          e.stdout = obsTimeout.stdoutAcc ∧ e.stderr = obsTimeout.stderrAcc ∧
          ∃ pre post, e.message = pre ++ toString ((some 5).getD DEFAULT_TIMEOUT_MS) ++ post) :=
  ⟨rfl, (claim3_timeout_kill_minus_one (some 5) "cfg" obsTimeout rfl).1⟩

/-- C4.  For every invocation whose subprocess closes with exit code `c`:
if `c ≠ 0` the lifecycle fails with an `InvocationError` carrying exactly
`c` and the full accumulated streams (all three agents); if `c = 0` it
proceeds to output parsing and returns the success response. -/
theorem claim4_exit_classification (tmo : Option Nat) (cfg : String) (obs : ProcObs) (c : Int)
    (h : obs.closeCode = some (some c)) :
    (c ≠ 0 →
      (∃ e, (invokeCodex tmo obs).result = .error e ∧ e.exitCode = c ∧
        e.stdout = obs.stdoutAcc ∧ e.stderr = obs.stderrAcc) ∧
      (∃ e, (invokeContinue tmo (some cfg) obs).result = .error e ∧ e.exitCode = c ∧
        e.stdout = obs.stdoutAcc ∧ e.stderr = obs.stderrAcc) ∧
      (∃ e, (invokeGemini tmo obs).result = .error e ∧ e.exitCode = c ∧
        e.stdout = obs.stdoutAcc ∧ e.stderr = obs.stderrAcc)) ∧
    (c = 0 →
      (invokeCodex tmo obs).result = .ok (codexSuccess obs) ∧
      (invokeContinue tmo (some cfg) obs).result = .ok (continueSuccess obs) ∧
      (invokeGemini tmo obs).result = .ok (geminiSuccess obs)) := by
  constructor
  · intro hc
    refine ⟨⟨{ message := "Codex exited with code " ++ toString c
               exitCode := c
               stdout := obs.stdoutAcc
               stderr := obs.stderrAcc }, ?_, rfl, rfl, rfl⟩, ?_, ?_⟩
    · simp [invokeCodex, h, hc]
    · refine ⟨{ message := "Continue exited with code " ++ toString c
                exitCode := c
                stdout := obs.stdoutAcc
                stderr := obs.stderrAcc }, ?_, rfl, rfl, rfl⟩
      simp [invokeContinue, h, hc]
    · refine ⟨{ message := "Gemini exited with code " ++ toString c
                exitCode := c
                stdout := obs.stdoutAcc
                stderr := obs.stderrAcc }, ?_, rfl, rfl, rfl⟩
      simp [invokeGemini, h, hc]
  · intro hc
    subst hc
    refine ⟨?_, ?_, ?_⟩ <;>
      simp [invokeCodex, invokeContinue, invokeGemini, h, codexSuccess,
        continueSuccess, geminiSuccess]

/-- C4 witness: a concrete exit-code-2 observation. -/
theorem claim4_witness :
    obsExit2.closeCode = some (some 2) ∧ (2 : Int) ≠ 0 ∧
      ∃ e, (invokeCodex none obsExit2).result = .error e ∧ e.exitCode = 2 ∧
        e.stdout = obsExit2.stdoutAcc ∧ e.stderr = obsExit2.stderrAcc :=
  ⟨rfl, by decide,
   ((claim4_exit_classification none "cfg" obsExit2 2 rfl).1 (by decide)).1⟩

/-- C10.  For every invocation whose subprocess closes before the timeout
with a null exit code (e.g. killed by a signal), every invoke function
substitutes exit code 0 and returns a success result, so the caller sees
a successful task. -/
theorem claim10_null_code_reported_success (tmo : Option Nat) (cfg : String) (obs : ProcObs)
    (h : obs.closeCode = some none) :
    (invokeCodex tmo obs).result = .ok (codexSuccess obs) ∧
    (invokeContinue tmo (some cfg) obs).result = .ok (continueSuccess obs) ∧
    (invokeGemini tmo obs).result = .ok (geminiSuccess obs) := by
  refine ⟨?_, ?_, ?_⟩ <;>
    simp [invokeCodex, invokeContinue, invokeGemini, h, codexSuccess,
      continueSuccess, geminiSuccess]

/-- C10 witness: a concrete signal-killed observation. -/
theorem claim10_witness :
    obsNullCode.closeCode = some none ∧
      (invokeCodex none obsNullCode).result = .ok (codexSuccess obsNullCode) :=
  ⟨rfl, (claim10_null_code_reported_success none "cfg" obsNullCode rfl).1⟩

/-- C5.  For every batch, every per-task invocation outcome (success,
`CodexInvocationError` — covering spawn failure, non-zero exit and
timeout — or any other thrown error) and every completion order, the
batch resolves with exactly one structured record per task at its
original index, and each record's status is ok or error; no failure
escapes as a rejection of the batch. -/
theorem claim5_batch_isolated_outcomes (tasks : List PromptTask) (concurrency? : Option Nat)
    (outcome : Nat → CodexOutcome) (sched : List Nat)
    (hconc : ∀ c, concurrency? = some c → 1 ≤ c)
    (hsched : tasks.length ≤ sched.length) :
    ∃ r, runCodexBatch tasks concurrency? outcome sched = some r ∧
      r.length = tasks.length ∧
      ∀ i, i < tasks.length →
        r[i]? = some (some (codexWorker (tasks.getD i dfltPromptTask) (outcome i))) ∧
        (resultStatus (codexWorker (tasks.getD i dfltPromptTask) (outcome i)) = "ok" ∨
          resultStatus (codexWorker (tasks.getD i dfltPromptTask) (outcome i)) = "error") := by
  have hstatus : ∀ (p : PromptTask) (o : CodexOutcome),
      resultStatus (codexWorker p o) = "ok" ∨ resultStatus (codexWorker p o) = "error" := by
    intro p o
    cases o
    · left; rfl
    · right; rfl
    · right; rfl
  rcases List.eq_nil_or_concat tasks with hnil | hcat
  · subst hnil
    refine ⟨[], ?_, rfl, ?_⟩
    · cases sched <;> rfl
    · intro i hi
      exact absurd hi (by simp)
  · have hpos : 0 < tasks.length := by
      obtain ⟨l, a, hl⟩ := hcat
      subst hl
      simp
    have hlim : 1 ≤ min (concurrency?.getD tasks.length) tasks.length := by
      rw [Nat.le_min]
      refine ⟨?_, hpos⟩
      rcases hc : concurrency? with _ | c
      · simp
        omega
      · simp
        exact hconc c hc
    obtain ⟨r, hrun, hlen, hspec⟩ := schedRun_complete
      (min (concurrency?.getD tasks.length) tasks.length) tasks.length
      (fun i => codexWorker (tasks.getD i dfltPromptTask) (outcome i)) sched
      (launchNext (min (concurrency?.getD tasks.length) tasks.length) tasks.length
        (initState tasks.length))
      (startState_inv (min (concurrency?.getD tasks.length) tasks.length) tasks.length
        (fun i => codexWorker (tasks.getD i dfltPromptTask) (outcome i)))
      (startState_sat (min (concurrency?.getD tasks.length) tasks.length) tasks.length
        (fun i => codexWorker (tasks.getD i dfltPromptTask) (outcome i)))
      hlim
      (by
        rw [startState_pending (min (concurrency?.getD tasks.length) tasks.length)
          tasks.length (fun i => codexWorker (tasks.getD i dfltPromptTask) (outcome i))]
        exact hsched)
    exact ⟨r, hrun, hlen, fun i hi => ⟨hspec i hi, hstatus _ _⟩⟩

/-- C5 witness: a one-task batch whose invocation throws a generic
error. -/
theorem claim5_witness :
    (∀ c, (some 1 : Option Nat) = some c → 1 ≤ c) ∧
      ([taskA].length ≤ ([0] : List Nat).length) ∧
      ∃ r, runCodexBatch [taskA] (some 1) (fun _ => CodexOutcome.otherErr "boom") [0] = some r ∧
        r.length = [taskA].length ∧
        ∀ i, i < [taskA].length →
          r[i]? = some (some (codexWorker ([taskA].getD i dfltPromptTask)
            ((fun _ => CodexOutcome.otherErr "boom") i))) ∧
          (resultStatus (codexWorker ([taskA].getD i dfltPromptTask)
              ((fun _ => CodexOutcome.otherErr "boom") i)) = "ok" ∨
            resultStatus (codexWorker ([taskA].getD i dfltPromptTask)
              ((fun _ => CodexOutcome.otherErr "boom") i)) = "error") :=
  ⟨fun c hc => by cases hc; exact Nat.le_refl 1, by decide,
   claim5_batch_isolated_outcomes [taskA] (some 1) (fun _ => CodexOutcome.otherErr "boom") [0]
     (fun c hc => by cases hc; exact Nat.le_refl 1) (by decide)⟩

/-- C6 counterexample: on the spec's own three-line example the
reconstructed reply is NOT `"hi\nbye"` — the top-level `agent_message`
events match neither the `msg`-object branch nor the
`type === "message"` branch of `parseAssistantReply`, so nothing is
collected. -/
theorem claim6_cex_top_level_agent_message :
    parseAssistantReply (parseJsonLines exSpecC6) ≠ "hi\nbye" := by
  intro hcon
  have h1 : parseAssistantReply (parseJsonLines exSpecC6) = "" := rfl
  rw [h1] at hcon
  exact absurd hcon (by decide)

/-- C6 (amended).  Newline-delimited JSON parsing parses each trimmed
non-empty line independently, keeps an unparsable line as a synthetic
`log` event at its position (never dropping it and never throwing), and
never changes the line count; the reply is reconstructed only from
assistant content nested under a `msg` object (or a `type:"message"`
event's data).  On the spec's example the events are kept (two parsed,
one log) but the reply is empty, because its `agent_message` objects are
not nested under `msg`; nesting them yields `"hi\nbye"`. -/
theorem claim6_jsonl_parsing_amended :
    (∀ s : String, (parseJsonLines s).length = (cleanLines s).length) ∧
    (∀ (s : String) (i : Nat) (l : String),
      (cleanLines s)[i]? = some l → jsonParse l = none →
      (parseJsonLines s)[i]? = some (logEvent l)) ∧
    (∀ (s : String) (i : Nat) (l : String) (v : JVal),
      (cleanLines s)[i]? = some l → jsonParse l = some v →
      (parseJsonLines s)[i]? = some v) ∧
    parseJsonLines exSpecC6 =
      [evAgentMessage "hi", logEvent "not-json", evAgentMessage "bye"] ∧
    parseAssistantReply (parseJsonLines exSpecC6) = "" ∧
    parseAssistantReply (parseJsonLines exNestedC6) = "hi\nbye" := by
  refine ⟨?_, ?_, ?_, rfl, rfl, rfl⟩
  · intro s
    simp [parseJsonLines]
  · intro s i l hl hp
    rw [parseJsonLines, List.getElem?_map, hl]
    simp [hp]
  · intro s i l v hl hp
    rw [parseJsonLines, List.getElem?_map, hl]
    simp [hp]

/-- C6 witness: the unparsable middle line of the example is kept as a
log event at index 1. -/
theorem claim6_witness :
    (cleanLines exSpecC6)[1]? = some "not-json" ∧
      jsonParse "not-json" = none ∧
      (parseJsonLines exSpecC6)[1]? = some (logEvent "not-json") :=
  ⟨rfl, rfl, claim6_jsonl_parsing_amended.2.1 exSpecC6 1 "not-json" rfl rfl⟩

/-- C7 counterexample: on stdout whose first balanced span parses with a
`response` field but whose first-brace-to-last-brace substring does not
parse, the code's parser returns the raw trimmed stdout while the
claimed first-balanced-span strategy returns the response — the claim as
stated is false. -/
theorem claim7_cex_not_balanced_span :
    parseGeminiResponse gemCexIn ≠ specGeminiBalanced gemCexIn := by
  intro hcon
  have h1 : parseGeminiResponse gemCexIn =
      { response := .str gemCexIn, stats := none } := rfl
  have h2 : specGeminiBalanced gemCexIn =
      { response := .str "hi", stats := none } := rfl
  rw [h1, h2] at hcon
  injection hcon with hr hs
  injection hr with hstr
  exact absurd hstr (by decide)

/-- C7 (amended).  The single-JSON-object parser first parses the whole
payload and uses its `response` field when present; if the whole payload
yields no response it parses the SUBSTRING FROM THE FIRST OPENING BRACE
TO THE LAST CLOSING BRACE (not the first balanced span) when the end
lies after the start; if that too recovers no `response` field it
returns the raw trimmed stdout. -/
theorem claim7_gemini_chain_amended (stdout : String) :
    (∀ p rv, jsonParse stdout = some p → jvField p "response" = some rv →
      parseGeminiResponse stdout =
        { response := jsOrEmptyStr rv, stats := jvField p "stats" }) ∧
    (∀ p rv i j,
      (jsonParse stdout = none ∨
        ∃ p0, jsonParse stdout = some p0 ∧ jvField p0 "response" = none) →
      strIndexOf stdout lbrace = some i → strLastIndexOf stdout rbrace = some j →
      i < j → jsonParse (strSubstringCh stdout i (j + 1)) = some p →
      jvField p "response" = some rv →
      parseGeminiResponse stdout =
        { response := jsOrEmptyStr rv, stats := jvField p "stats" }) ∧
    ((jsonParse stdout = none ∨
        ∃ p0, jsonParse stdout = some p0 ∧ jvField p0 "response" = none) →
      (∀ i j, strIndexOf stdout lbrace = some i → strLastIndexOf stdout rbrace = some j →
        i < j →
        jsonParse (strSubstringCh stdout i (j + 1)) = none ∨
          ∃ p0, jsonParse (strSubstringCh stdout i (j + 1)) = some p0 ∧
            jvField p0 "response" = none) →
      parseGeminiResponse stdout = geminiRaw stdout) := by
  refine ⟨?_, ?_, ?_⟩
  · intro p rv h1 h2
    simp [parseGeminiResponse, h1, h2]
  · intro p rv i j hwhole hi hj hij hsub hresp
    have hfall : parseGeminiFallback stdout =
        { response := jsOrEmptyStr rv, stats := jvField p "stats" } := by
      simp [parseGeminiFallback, hi, hj, hij, hsub, hresp]
    rcases hwhole with h1 | ⟨p0, h1, h2⟩
    · simp [parseGeminiResponse, h1, hfall]
    · simp [parseGeminiResponse, h1, h2, hfall]
  · intro hwhole hfb
    have hfall : parseGeminiFallback stdout = geminiRaw stdout := by
      rcases hi : strIndexOf stdout lbrace with _ | i
      · simp [parseGeminiFallback, hi]
      · rcases hj : strLastIndexOf stdout rbrace with _ | j
        · simp [parseGeminiFallback, hi, hj]
        · by_cases hij : i < j
          · rcases hsub : jsonParse (strSubstringCh stdout i (j + 1)) with _ | p0
            · simp [parseGeminiFallback, hi, hj, hij, hsub]
            · rcases hfb i j hi hj hij with hnone | ⟨p1, hp1, hr1⟩
              · rw [hsub] at hnone
                exact absurd hnone (by simp)
              · rw [hsub] at hp1
                injection hp1 with hp1e
                subst hp1e
                simp [parseGeminiFallback, hi, hj, hij, hsub, hr1]
          · simp [parseGeminiFallback, hi, hj, hij]
    rcases hwhole with h1 | ⟨p0, h1, h2⟩
    · simp [parseGeminiResponse, h1, hfall]
    · simp [parseGeminiResponse, h1, h2, hfall]

/-- C7 witness: the three strategies exercised on concrete stdout —
whole-payload, brace-substring fallback, and raw fallback. -/
theorem claim7_witness :
    parseGeminiResponse gemWhole =
      { response := jsOrEmptyStr (.str "hi"),
        stats := jvField (.obj [("response", .str "hi")]) "stats" } ∧
    parseGeminiResponse gemWrapped =
      { response := jsOrEmptyStr (.str "hi"),
        stats := jvField (.obj [("response", .str "hi")]) "stats" } ∧
    parseGeminiResponse gemPlain = geminiRaw gemPlain :=
  ⟨(claim7_gemini_chain_amended gemWhole).1 (.obj [("response", .str "hi")]) (.str "hi") rfl rfl,
   (claim7_gemini_chain_amended gemWrapped).2.1 (.obj [("response", .str "hi")]) (.str "hi")
     1 17 (Or.inl rfl) rfl rfl (by decide) rfl rfl,
   (claim7_gemini_chain_amended gemPlain).2.2 (Or.inl rfl)
     (fun i j hi hj hij => nomatch hi)⟩

/-- C8 counterexample: with a progress token, calling `start()` twice and
then `stop()` leaves the first interval timer still scheduled —
`start()` is not idempotent and `stop()` does not cancel all timers, so
a notification can still fire after `stop()`. -/
theorem claim8_cex_double_start_leaks :
    (hbStop (hbStart true (hbStart true hbInit))).activeTimers ≠ [] := by
  decide

/-- C8 (amended).  Without a progress token `start()` is a no-op (so no
timer is ever scheduled and no notification is ever emitted); `stop()`
is idempotent and safe before `start()`; after a single `start()`,
`stop()` cancels the timer; but a second `start()` before `stop()`
overwrites the stored handle, orphaning the first interval: after
start-start-stop the first timer is still scheduled. -/
theorem claim8_heartbeat_lifecycle :
    (∀ s : HbState, hbStart false s = s) ∧
    hbStop hbInit = hbInit ∧
    (∀ s : HbState, hbStop (hbStop s) = hbStop s) ∧
    (hbStop (hbStart true hbInit)).activeTimers = [] ∧
    (hbStop (hbStart true (hbStart true hbInit))).activeTimers = [0] := by
  refine ⟨?_, rfl, ?_, by decide, by decide⟩
  · intro s
    simp [hbStart]
  · intro s
    cases hih : s.intervalHandle <;> simp [hbStop, hih]

/-- C9 counterexample: the gemini invocation lifecycle performs stream
I/O without ever registering its child process, so the claim fails for
the gemini agent kind. -/
theorem claim9_cex_gemini_never_registers :
    regBeforeIO (traceOf AgentKind.gemini) = false := by
  decide

/-- C9 (amended).  The codex and continue lifecycles register the child
with the process registry immediately after spawn — before any stream
listener, stdin write, or await — but the gemini lifecycle never calls
`registerProcess` at all, so a concurrent shutdown cannot reach its
child. -/
theorem claim9_register_before_io_amended :
    regBeforeIO (traceOf AgentKind.codex) = true ∧
    regBeforeIO (traceOf AgentKind.continueAgent) = true ∧
    (traceOf AgentKind.codex).take 2 = [.spawn, .register] ∧
    (traceOf AgentKind.continueAgent).take 2 = [.spawn, .register] ∧
    LifecycleEvent.register ∉ traceOf AgentKind.gemini := by
  refine ⟨rfl, rfl, rfl, rfl, ?_⟩
  decide

end SuperAgent
